import Mathlib

/-!
Verification development for the dataset-splitter script
`neural_networks/cnn/tensor_serializer.py` and its companion demo script.

The splitter enumerates the files of a source directory, shuffles them,
and for every file ending in `.jpg` decodes it, resizes it to 300x300,
converts it to a normalized tensor, and serializes the result into a
train or a test directory depending on the file's position in the
shuffled enumeration.

The script is embedded shallowly:
* file names are `String`s; path helpers (`basename`, `splitext`) follow
  the Python `ntpath` algorithms character by character;
* the per-iteration body of the `for counter, file in enumerate(files)`
  loop is `route`; the whole loop is `processFrom 0` (`process`);
* directory listing is modelled by `collect_inputs` over a one-level
  filesystem tree (`FSNode`);
* faults of the decode and save primitives are modelled by `runLoop`
  over an environment of fallible operations (`Env`);
* the image pipeline (`PIL.Image.resize` followed by
  `transforms.ToTensor()`) is modelled by `PILImage.resize` and
  `toTensor` with exact rational pixel values.
-/

/-! ## Path helpers (Python `ntpath.basename`, `ntpath.splitext`) -/

/-- Python `os.path.basename` on Windows: the part of the path after the
last `\` or `/` separator (drive handling is irrelevant here because every
path the script builds contains a separator after the drive). -/
def basenameChars (l : List Char) : List Char :=
  l.foldl (fun acc c => if c = '\\' ∨ c = '/' then [] else acc ++ [c]) []

def basename (s : String) : String := ⟨basenameChars s.data⟩

/-- Index of the last occurrence of `c` in `l`, or `-1` when absent —
Python's `str.rfind`. -/
def rfindI (l : List Char) (c : Char) : Int :=
  match ((l.enum.filter (fun q => q.2 = c)).map Prod.fst).getLast? with
  | some i => (i : Int)
  | none => -1

/-- The stem component of Python `os.path.splitext`: the extension starts
at the last dot, provided that dot comes after the last path separator and
at least one non-dot character stands between them (so `.jpg` has no
extension and its stem is the whole name). -/
def splitextStemChars (p : List Char) : List Char :=
  let sepIdx := max (rfindI p '\\') (rfindI p '/')
  let dotIdx := rfindI p '.'
  if sepIdx < dotIdx then
    if (List.range p.length).any
        (fun j => decide (sepIdx < (j : Int)) && decide ((j : Int) < dotIdx)
          && (p.getD j '.' != '.')) then
      p.take dotIdx.toNat
    else p
  else p

def stem (s : String) : String := ⟨splitextStemChars s.data⟩

/-- `file.endswith('.jpg')` from line 24 of the script. -/
def jpgB (f : String) : Bool := ".jpg".data.isSuffixOf f.data

/-! ## The split loop -/

/-- The loop guard on line 27 is `counter < (0.8 * 25000)`. In IEEE-754
binary64 arithmetic (Python floats), `0.8` is `3602879701896397 * 2 ^ (-52)`
and the product `0.8 * 25000` rounds to exactly `20000.0` (the exact product
exceeds `20000` by `5000 * 2 ^ (-52)`, less than half an ulp, which is
`8192 * 2 ^ (-52)` at `20000`). Python compares an int with a float
exactly, so the guard is equivalent to `counter < 20000`. -/
def threshold : Nat := 20000

/-- The two destination directories of `torch.save`. -/
inductive Dest where
  | train : Dest
  | test : Dest
deriving DecidableEq

/-- One serialized output: which destination directory received it and the
file name written there (`f'{file_name}.pt'`). -/
structure Output where
  dest : Dest
  name : String
deriving DecidableEq

/-- The output produced for the file at enumeration position `counter`:
`file_name = os.path.splitext(os.path.basename(file))[0]`, saved as
`{file_name}.pt` under the train directory when `counter < 0.8 * 25000`
and under the test directory otherwise. -/
def mkOutput (counter : Nat) (file : String) : Output :=
  ⟨if counter < threshold then Dest.train else Dest.test,
    stem (basename file) ++ ".pt"⟩

/-- The body of the `for counter, file in enumerate(files)` loop: files not
ending in `.jpg` produce nothing; qualifying files produce exactly one
output. -/
def route (counter : Nat) (file : String) : Option Output :=
  if jpgB file then some (mkOutput counter file) else none

/-- The loop itself, started at enumeration counter `n`. -/
def processFrom (n : Nat) : List String → List Output
  | [] => []
  | f :: fs =>
    match route n f with
    | some o => o :: processFrom (n + 1) fs
    | none => processFrom (n + 1) fs

/-- The complete pass over the (already shuffled) file list: `enumerate`
starts the counter at `0`. -/
def process (files : List String) : List Output := processFrom 0 files

/-! ## Hardcoded paths of the script -/

def root_dir : String :=
  "C:\\Users\\stefa\\Documents\\ML\\neural_networks\\data\\cats_dogs"

def tensor_dir : String :=
  "C:\\Users\\stefa\\Documents\\ML\\neural_networks\\data\\cats_dogs\\tensors\\train"

def test_tensor_dir : String :=
  "C:\\Users\\stefa\\Documents\\ML\\neural_networks\\data\\cats_dogs\\tensors\\test"

/-! ## Directory listing (`collect_inputs`) -/

/-- One entry of the source directory: either a regular file or a
subdirectory with its own contents. `os.listdir` enumerates only the
top-level entries. -/
inductive FSNode where
  | file (nm : String) : FSNode
  | dir (nm : String) (children : List FSNode) : FSNode

/-- `os.path.isfile` on a directory entry. -/
def isRegularFile : FSNode → Bool
  | .file _ => true
  | .dir _ _ => false

def nodeName : FSNode → String
  | .file nm => nm
  | .dir nm _ => nm

/-- `os.path.join(root_dir, f)` with the Windows separator. -/
def joinPath (root nm : String) : String := root ++ "\\" ++ nm

/-- Line 19 of the script:
`[os.path.join(root_dir, f) for f in os.listdir(root_dir)
  if os.path.isfile(os.path.join(root_dir, f))]`. -/
def collect_inputs (root : String) (entries : List FSNode) : List String :=
  (entries.filter (fun e => isRegularFile e)).map
    (fun e => joinPath root (nodeName e))

/-! ## Fault model

The script installs no exception handler, so any exception raised by a
primitive operation aborts the whole run. `Env` gives the two fallible
primitives of the loop body an outcome per file, and `runLoop` threads
them exactly as the loop does: a raised fault stops the iteration at once
and nothing after the faulting file is processed. -/

inductive Err where
  | decodeFail (file : String) : Err
  | saveFail (file : String) : Err
deriving DecidableEq

/-- The fallible primitives of one iteration:
`decode` models `transform(Image.open(file).resize((300, 300)))` and
`save` models `torch.save(...)` for that file. -/
structure Env where
  decode : String → Except Err Unit
  save : String → Except Err Unit

/-- The loop under the fault model: the outputs written before any fault,
and the first fault if one occurred. A non-`.jpg` file runs no primitive
at all. -/
def runLoop (env : Env) : Nat → List String → List Output × Option Err
  | _, [] => ([], none)
  | n, f :: fs =>
    if jpgB f then
      match env.decode f with
      | .error e => ([], some e)
      | .ok _ =>
        match env.save f with
        | .error e => ([], some e)
        | .ok _ =>
          let r := runLoop env (n + 1) fs
          (mkOutput n f :: r.1, r.2)
    else runLoop env (n + 1) fs

/-- `os.makedirs(d, exist_ok=True)` over a set of existing directories. -/
def makedirs (d : String) (dirs : List String) : List String :=
  if d ∈ dirs then dirs else dirs ++ [d]

/-- The observable state after a run: the directories that exist, the
outputs that were written, and whether `print('Done')` executed. -/
structure RunResult where
  dirs : List String
  written : List Output
  donePrinted : Bool

/-- The whole script under the fault model: both destination directories
are created before the loop starts, then the loop runs, and `Done` is
printed only when the loop finished without a fault. -/
def run (env : Env) (dirs0 : List String) (files : List String) : RunResult :=
  let dirs1 := makedirs test_tensor_dir (makedirs tensor_dir dirs0)
  let r := runLoop env 0 files
  ⟨dirs1, r.1, r.2.isNone⟩

/-! ## Image pipeline

`Image.open(file).resize((300, 300))` followed by
`transforms.Compose([transforms.ToTensor()])`. Pixel channel values of a
decoded image are integers in `0..255`; `ToTensor` divides by 255 into a
channel-first float tensor. Values are modelled as exact rationals (the
float division only rounds within `[0, 1]`); the resampling kernel of
`resize` is modelled as nearest-neighbour since only the output geometry
is specified. -/

structure PILImage where
  width : Nat
  height : Nat
  channels : Nat
  pixel : Nat → Nat → Nat → Nat

/-- `img.resize((w, h))`: the result has the requested size; source pixels
are taken by coordinate scaling. -/
def PILImage.resize (img : PILImage) (w h : Nat) : PILImage :=
  ⟨w, h, img.channels,
    fun c x y => img.pixel c (x * img.width / w) (y * img.height / h)⟩

/-- A channel-first tensor: `val c y x` is the entry at channel `c`,
row `y`, column `x`. -/
structure Tensor3 where
  channels : Nat
  height : Nat
  width : Nat
  val : Nat → Nat → Nat → ℚ

/-- `transforms.ToTensor()`: HWC pixels in `0..255` become a CHW tensor
with each value divided by 255. -/
def toTensor (img : PILImage) : Tensor3 :=
  ⟨img.channels, img.height, img.width,
    fun c y x => (img.pixel c x y : ℚ) / 255⟩

/-- `transform = transforms.Compose([transforms.ToTensor()])` from lines
8-10 of the script. -/
def transform (img : PILImage) : Tensor3 := toTensor img

/-- Line 25 of the script for one file, with `open_` giving the decoded
image of each path: `transform(Image.open(file).resize((300, 300)))`. -/
def transformedSample (open_ : String → PILImage) (file : String) : Tensor3 :=
  transform ((open_ file).resize 300 300)

/-! ## Spec-side definition for the naming claim (refinement) -/

/-- Follows the spec's words, not the source: the output base name is the
input's base name with `.pt` substituted for the trailing `.jpg`. -/
def specSubstitutedName (b : String) : String := b.dropRight 4 ++ ".pt"

/-! ## Helper lemmas about the loop -/

lemma processFrom_cons_jpg (n : Nat) (f : String) (fs : List String)
    (h : jpgB f = true) :
    processFrom n (f :: fs) = mkOutput n f :: processFrom (n + 1) fs := by
  simp [processFrom, route, h]

lemma processFrom_cons_skip (n : Nat) (f : String) (fs : List String)
    (h : jpgB f = false) :
    processFrom n (f :: fs) = processFrom (n + 1) fs := by
  simp [processFrom, route, h]

lemma processFrom_append (xs ys : List String) :
    ∀ n, processFrom n (xs ++ ys)
      = processFrom n xs ++ processFrom (n + xs.length) ys := by
  induction xs with
  | nil => intro n; simp [processFrom]
  | cons x xs ih =>
    intro n
    have hlen : n + (x :: xs).length = (n + 1) + xs.length := by
      simp [List.length_cons]; omega
    rw [hlen]
    cases hx : jpgB x with
    | true => simp [List.cons_append, processFrom_cons_jpg _ _ _ hx, ih]
    | false => simp [List.cons_append, processFrom_cons_skip _ _ _ hx, ih]

lemma processFrom_replicate_skip (s : String) (h : jpgB s = false) :
    ∀ k n, processFrom n (List.replicate k s) = [] := by
  intro k
  induction k with
  | zero => intro n; simp [processFrom]
  | succ k ih =>
    intro n
    rw [List.replicate_succ, processFrom_cons_skip _ _ _ h]
    exact ih (n + 1)

lemma length_processFrom (files : List String) :
    ∀ n, (processFrom n files).length
      = (files.filter (fun f => jpgB f)).length := by
  induction files with
  | nil => intro n; simp [processFrom]
  | cons f fs ih =>
    intro n
    cases hf : jpgB f with
    | true => simp [processFrom_cons_jpg _ _ _ hf, List.filter_cons, hf, ih]
    | false => simp [processFrom_cons_skip _ _ _ hf, List.filter_cons, hf, ih]

lemma mem_processFrom_of_get (files : List String) :
    ∀ n i f, files.get? i = some f → jpgB f = true →
      mkOutput (n + i) f ∈ processFrom n files := by
  induction files with
  | nil => intro n i f hg; simp [List.get?] at hg
  | cons g gs ih =>
    intro n i f hg hf
    cases i with
    | zero =>
      rw [List.get?_cons_zero] at hg
      injection hg with hg
      subst hg
      rw [processFrom_cons_jpg _ _ _ hf]
      simp
    | succ i =>
      rw [List.get?_cons_succ] at hg
      have hmem := ih (n + 1) i f hg hf
      have harith : n + 1 + i = n + (i + 1) := by omega
      rw [harith] at hmem
      cases hgjpg : jpgB g with
      | true =>
        rw [processFrom_cons_jpg _ _ _ hgjpg]
        exact List.mem_cons_of_mem _ hmem
      | false =>
        rw [processFrom_cons_skip _ _ _ hgjpg]
        exact hmem

lemma processFrom_provenance (files : List String) :
    ∀ n o, o ∈ processFrom n files →
      ∃ i f, files.get? i = some f ∧ jpgB f = true ∧ o = mkOutput (n + i) f := by
  induction files with
  | nil => intro n o ho; simp [processFrom] at ho
  | cons g gs ih =>
    intro n o ho
    cases hg : jpgB g with
    | true =>
      rw [processFrom_cons_jpg _ _ _ hg] at ho
      rcases List.mem_cons.mp ho with h | h
      · exact ⟨0, g, List.get?_cons_zero, hg, by simpa using h⟩
      · rcases ih (n + 1) o h with ⟨i, f, hget, hjpg, heq⟩
        exact ⟨i + 1, f, by rw [List.get?_cons_succ]; exact hget, hjpg,
          by rw [heq]; congr 1; omega⟩
    | false =>
      rw [processFrom_cons_skip _ _ _ hg] at ho
      rcases ih (n + 1) o ho with ⟨i, f, hget, hjpg, heq⟩
      exact ⟨i + 1, f, by rw [List.get?_cons_succ]; exact hget, hjpg,
        by rw [heq]; congr 1; omega⟩

lemma processFrom_all_train (files : List String) :
    ∀ n, n + files.length ≤ threshold →
      ∀ o ∈ processFrom n files, o.dest = Dest.train := by
  induction files with
  | nil => intro n _ o ho; simp [processFrom] at ho
  | cons g gs ih =>
    intro n hn o ho
    have hlen : n < threshold := by
      simp [List.length_cons] at hn; omega
    have htail : n + 1 + gs.length ≤ threshold := by
      simp [List.length_cons] at hn; omega
    cases hg : jpgB g with
    | true =>
      rw [processFrom_cons_jpg _ _ _ hg] at ho
      rcases List.mem_cons.mp ho with h | h
      · rw [h]; simp [mkOutput, hlen]
      · exact ih (n + 1) htail o h
    | false =>
      rw [processFrom_cons_skip _ _ _ hg] at ho
      exact ih (n + 1) htail o ho

lemma names_processFrom (files : List String) :
    ∀ n, (processFrom n files).map (fun o => o.name)
      = (files.filter (fun f => jpgB f)).map
          (fun f => stem (basename f) ++ ".pt") := by
  induction files with
  | nil => intro n; simp [processFrom]
  | cons g gs ih =>
    intro n
    cases hg : jpgB g with
    | true =>
      simp [processFrom_cons_jpg _ _ _ hg, List.filter_cons, hg, ih, mkOutput]
    | false =>
      simp [processFrom_cons_skip _ _ _ hg, List.filter_cons, hg, ih]

lemma counts_processFrom (files : List String) :
    ∀ n, ((processFrom n files).filter (fun o => o.dest = Dest.train)).length
      + ((processFrom n files).filter (fun o => o.dest = Dest.test)).length
      = (files.filter (fun f => jpgB f)).length := by
  induction files with
  | nil => intro n; simp [processFrom]
  | cons g gs ih =>
    intro n
    cases hg : jpgB g with
    | true =>
      rw [processFrom_cons_jpg _ _ _ hg]
      have hrec := ih (n + 1)
      by_cases hn : n < threshold
      · simp [List.filter_cons, mkOutput, hn, hg] at hrec ⊢
        omega
      · simp [List.filter_cons, mkOutput, hn, hg] at hrec ⊢
        omega
    | false =>
      rw [processFrom_cons_skip _ _ _ hg]
      simpa [List.filter_cons, hg] using ih (n + 1)

lemma filter_jpg_replicate (s : String) (h : jpgB s = false) :
    ∀ k, List.filter (fun f => jpgB f) (List.replicate k s) = [] := by
  intro k
  induction k with
  | zero => simp
  | succ k ih => rw [List.replicate_succ, List.filter_cons]; simp [h, ih]

lemma runLoop_skip (env : Env) (n : Nat) (f : String) (fs : List String)
    (h : jpgB f = false) :
    runLoop env n (f :: fs) = runLoop env (n + 1) fs := by
  simp [runLoop, h]

/-- A single `.jpg` file in front of 20000 skipped files is at counter 0
and goes to the train directory. -/
lemma process_head_example :
    process ("a.jpg" :: List.replicate 20000 "b")
      = [Output.mk Dest.train "a.pt"] := by
  show processFrom 0 ("a.jpg" :: List.replicate 20000 "b") = _
  rw [processFrom_cons_jpg _ _ _ (by decide),
    processFrom_replicate_skip "b" (by decide)]
  decide

/-- The same `.jpg` file behind 20000 skipped files is at counter 20000
and goes to the test directory. -/
lemma process_shifted_example :
    process (List.replicate 20000 "b" ++ ["a.jpg"])
      = [Output.mk Dest.test "a.pt"] := by
  show processFrom 0 (List.replicate 20000 "b" ++ ["a.jpg"]) = _
  rw [processFrom_append, processFrom_replicate_skip "b" (by decide),
    List.nil_append, List.length_replicate,
    processFrom_cons_jpg _ _ _ (by decide)]
  decide

/-- An environment whose decode primitive always raises. -/
def envDecodeFail : Env :=
  ⟨fun f => Except.error (Err.decodeFail f), fun _ => Except.ok ()⟩

/-- A concrete decoded image for witness statements. -/
def demoOpen : String → PILImage := fun _ => ⟨640, 480, 3, fun _ _ _ => 128⟩

/-! ## Claims -/

/-- C1: a qualifying file is written to the train directory exactly when
its position index in the shuffled enumeration is strictly below
`0.8 * 25000 = 20000`; the threshold is this fixed constant (`mkOutput`
takes no dataset size), not a fraction of the actual number of inputs. -/
theorem split_threshold_is_fixed_constant
    (files : List String) (i : Nat) (f : String)
    (hget : files.get? i = some f) (hjpg : jpgB f = true) :
    mkOutput i f ∈ process files
    ∧ (mkOutput i f).dest = (if i < 20000 then Dest.train else Dest.test) := by
  constructor
  · simpa [process] using mem_processFrom_of_get files 0 i f hget hjpg
  · rfl

theorem split_threshold_is_fixed_constant_witness :
    mkOutput 0 "cat.jpg" ∈ process ["cat.jpg"]
    ∧ (mkOutput 0 "cat.jpg").dest
        = (if 0 < 20000 then Dest.train else Dest.test) :=
  split_threshold_is_fixed_constant ["cat.jpg"] 0 "cat.jpg" rfl (by decide)

/-- C2: a file whose name does not end in `.jpg` is skipped silently — its
iteration produces no output and runs no primitive (so there is no count,
no warning, and no other observable effect), and every output of a run
stems from a `.jpg` file. -/
theorem non_jpg_files_silently_skipped (f : String) (hf : jpgB f = false) :
    (∀ n fs, processFrom n (f :: fs) = processFrom (n + 1) fs)
    ∧ (∀ env n fs, runLoop env n (f :: fs) = runLoop env (n + 1) fs)
    ∧ (∀ files o, o ∈ process files →
        ∃ i g, files.get? i = some g ∧ jpgB g = true ∧ o = mkOutput i g) := by
  refine ⟨fun n fs => processFrom_cons_skip n f fs hf,
    fun env n fs => runLoop_skip env n f fs hf,
    fun files o ho => ?_⟩
  rcases processFrom_provenance files 0 o ho with ⟨i, g, hget, hjpg, heq⟩
  exact ⟨i, g, hget, hjpg, by simpa using heq⟩

theorem non_jpg_files_silently_skipped_witness :
    processFrom 0 ["b.png", "a.jpg"] = processFrom 1 ["a.jpg"] :=
  (non_jpg_files_silently_skipped "b.png" (by decide)).1 0 ["a.jpg"]

/-- C3 counterexample: the file `.jpg` qualifies (`endswith('.jpg')` is
true) but Python `splitext` treats the whole name as stem, so the script
writes `.jpg.pt`, not the claimed substitution result `.pt`. -/
theorem naming_substitution_counterexample :
    jpgB ".jpg" = true
    ∧ process [".jpg"] = [Output.mk Dest.train ".jpg.pt"]
    ∧ specSubstitutedName (basename ".jpg") = ".pt"
    ∧ (Output.mk Dest.train ".jpg.pt").name
        ≠ specSubstitutedName (basename ".jpg") := by
  decide

/-- C3 amended: every processed `.jpg` file yields exactly one output
(the output count equals the `.jpg` count), placed in exactly one of the
two destination directories, named with the Python `splitext` stem of the
input's base name and the extension `.pt` — which is the substitution of
`.pt` for `.jpg` except when the stem is empty (as for the file `.jpg`). -/
theorem output_naming_uses_splitext_stem
    (files : List String) (i : Nat) (f : String)
    (hget : files.get? i = some f) (hjpg : jpgB f = true) :
    (process files).length = (files.filter (fun g => jpgB g)).length
    ∧ mkOutput i f ∈ process files
    ∧ (mkOutput i f).name = stem (basename f) ++ ".pt"
    ∧ ((mkOutput i f).dest = Dest.train ∨ (mkOutput i f).dest = Dest.test) := by
  refine ⟨length_processFrom files 0, ?_, rfl, ?_⟩
  · simpa [process] using mem_processFrom_of_get files 0 i f hget hjpg
  · by_cases h : i < threshold
    · left; simp [mkOutput, h]
    · right; simp [mkOutput, h]

theorem output_naming_uses_splitext_stem_witness :
    (process ["cat.jpg"]).length
        = (List.filter (fun g => jpgB g) ["cat.jpg"]).length
    ∧ mkOutput 0 "cat.jpg" ∈ process ["cat.jpg"]
    ∧ (mkOutput 0 "cat.jpg").name = stem (basename "cat.jpg") ++ ".pt"
    ∧ ((mkOutput 0 "cat.jpg").dest = Dest.train
        ∨ (mkOutput 0 "cat.jpg").dest = Dest.test) :=
  output_naming_uses_splitext_stem ["cat.jpg"] 0 "cat.jpg" rfl (by decide)

/-- C4: the outputs routed to the train directory and those routed to the
test directory together account for every `.jpg` input: the two filtered
counts sum to the `.jpg` count of the input list. -/
theorem train_plus_test_equals_jpg_count (files : List String) :
    ((process files).filter (fun o => o.dest = Dest.train)).length
      + ((process files).filter (fun o => o.dest = Dest.test)).length
      = (files.filter (fun f => jpgB f)).length :=
  counts_processFrom files 0

/-- C5: whatever the decoded image's dimensions, the transformed sample is
a 300x300, channel-first tensor whose rational values lie in `[0, 1]`
(each pixel channel value in `0..255` divided by 255). -/
theorem transformed_sample_shape_and_range
    (open_ : String → PILImage) (file : String)
    (hpix : ∀ c x y, (open_ file).pixel c x y ≤ 255) :
    (transformedSample open_ file).height = 300
    ∧ (transformedSample open_ file).width = 300
    ∧ (transformedSample open_ file).channels = (open_ file).channels
    ∧ ∀ c y x, 0 ≤ (transformedSample open_ file).val c y x
        ∧ (transformedSample open_ file).val c y x ≤ 1 := by
  refine ⟨rfl, rfl, rfl, fun c y x => ⟨?_, ?_⟩⟩
  · show (0 : ℚ) ≤ ((open_ file).pixel c (x * (open_ file).width / 300)
      (y * (open_ file).height / 300) : ℚ) / 255
    exact div_nonneg (Nat.cast_nonneg _) (by norm_num)
  · show ((open_ file).pixel c (x * (open_ file).width / 300)
      (y * (open_ file).height / 300) : ℚ) / 255 ≤ 1
    rw [div_le_one (by norm_num)]
    exact_mod_cast hpix _ _ _

theorem transformed_sample_shape_and_range_witness :
    (transformedSample demoOpen "cat.jpg").height = 300
    ∧ (transformedSample demoOpen "cat.jpg").width = 300
    ∧ (transformedSample demoOpen "cat.jpg").channels
        = (demoOpen "cat.jpg").channels
    ∧ ∀ c y x, 0 ≤ (transformedSample demoOpen "cat.jpg").val c y x
        ∧ (transformedSample demoOpen "cat.jpg").val c y x ≤ 1 :=
  transformed_sample_shape_and_range demoOpen "cat.jpg"
    (fun _ _ _ => by show (128 : Nat) ≤ 255; norm_num)

/-- C6: `collect_inputs` returns exactly the regular files directly inside
the source directory — an entry appears iff it is a top-level file node
(subdirectories and their contents are excluded) — with no extension
filtering at that stage; the `.jpg` check happens only later, inside the
iteration body `route`. -/
theorem collect_inputs_lists_regular_files
    (root : String) (entries : List FSNode) (p : String) :
    (p ∈ collect_inputs root entries ↔
      ∃ nm, FSNode.file nm ∈ entries ∧ p = joinPath root nm)
    ∧ (∀ n f, jpgB f = false → route n f = none) := by
  constructor
  · constructor
    · intro hp
      rcases List.mem_map.mp hp with ⟨e, he, heq⟩
      rcases List.mem_filter.mp he with ⟨hmem, hreg⟩
      cases e with
      | file nm => exact ⟨nm, hmem, heq.symm⟩
      | dir nm cs => simp [isRegularFile] at hreg
    · rintro ⟨nm, hmem, rfl⟩
      exact List.mem_map.mpr ⟨FSNode.file nm,
        List.mem_filter.mpr ⟨hmem, by simp [isRegularFile]⟩, rfl⟩
  · intro n f hf
    simp [route, hf]

theorem collect_inputs_lists_regular_files_witness :
    joinPath "r" "a.png" ∈ collect_inputs "r"
      [FSNode.file "a.png", FSNode.dir "sub" [FSNode.file "b.jpg"]]
    ∧ route 0 "a.png" = none := by
  constructor
  · exact ((collect_inputs_lists_regular_files "r"
      [FSNode.file "a.png", FSNode.dir "sub" [FSNode.file "b.jpg"]]
      (joinPath "r" "a.png")).1).mpr
      ⟨"a.png", List.mem_cons_self _ _, rfl⟩
  · exact (collect_inputs_lists_regular_files "r" [] "").2 0 "a.png" (by decide)

/-- C7: the completion message is printed iff the loop ran without fault;
a decode or save fault on a qualifying file aborts the run at once with
nothing further written; the two destination directories exist after the
run regardless of the loop's outcome, and directory creation is
idempotent (`exist_ok=True`). -/
theorem failure_propagation_and_done_message
    (env : Env) (dirs0 : List String) (files : List String)
    (f : String) (fs : List String) (e : Err) :
    ((run env dirs0 files).donePrinted = true ↔ (runLoop env 0 files).2 = none)
    ∧ (jpgB f = true → env.decode f = Except.error e →
        ∀ n, runLoop env n (f :: fs) = ([], some e))
    ∧ (jpgB f = true → env.decode f = Except.ok () →
        env.save f = Except.error e →
        ∀ n, runLoop env n (f :: fs) = ([], some e))
    ∧ (run env dirs0 files).dirs
        = makedirs test_tensor_dir (makedirs tensor_dir dirs0)
    ∧ (∀ d ds, makedirs d (makedirs d ds) = makedirs d ds) := by
  refine ⟨?_, ?_, ?_, rfl, ?_⟩
  · simp [run, Option.isNone_iff_eq_none]
  · intro hjpg hdec n
    simp [runLoop, hjpg, hdec]
  · intro hjpg hdec hsave n
    simp [runLoop, hjpg, hdec, hsave]
  · intro d ds
    by_cases h : d ∈ ds
    · simp [makedirs, h]
    · simp [makedirs, h]

theorem failure_propagation_and_done_message_witness :
    runLoop envDecodeFail 0 ["a.jpg", "b.jpg"]
      = ([], some (Err.decodeFail "a.jpg")) :=
  (failure_propagation_and_done_message envDecodeFail [] []
    "a.jpg" ["b.jpg"] (Err.decodeFail "a.jpg")).2.1 (by decide) rfl 0

/-- C8: any two shuffle orders of the same input list produce the same
multiset of output file names, while the train/test assignment of an
individual file can differ between the two orders. -/
theorem rerun_same_output_names :
    (∀ l1 l2 : List String, l1.Perm l2 →
      ((process l1).map (fun o => o.name)).Perm
        ((process l2).map (fun o => o.name)))
    ∧ (∃ l1 l2 : List String, l1.Perm l2
        ∧ Output.mk Dest.train "a.pt" ∈ process l1
        ∧ Output.mk Dest.test "a.pt" ∈ process l2) := by
  constructor
  · intro l1 l2 hperm
    show ((processFrom 0 l1).map (fun o => o.name)).Perm
      ((processFrom 0 l2).map (fun o => o.name))
    rw [names_processFrom l1 0, names_processFrom l2 0]
    exact (hperm.filter _).map _
  · refine ⟨"a.jpg" :: List.replicate 20000 "b",
      List.replicate 20000 "b" ++ ["a.jpg"], ?_, ?_, ?_⟩
    · exact @List.perm_append_comm String ["a.jpg"] (List.replicate 20000 "b")
    · rw [process_head_example]
      exact List.mem_singleton_self _
    · rw [process_shifted_example]
      exact List.mem_singleton_self _

theorem rerun_same_output_names_witness :
    ((process ["a.jpg", "b.txt"]).map (fun o => o.name)).Perm
      ((process ["b.txt", "a.jpg"]).map (fun o => o.name)) :=
  rerun_same_output_names.1 ["a.jpg", "b.txt"] ["b.txt", "a.jpg"] (by decide)

/-- C9: when the source directory holds at most 20000 files in total,
every enumeration index is below the fixed threshold, so every qualifying
file goes to the train directory and the test directory receives no
output. -/
theorem small_input_all_train (files : List String)
    (h : files.length ≤ 20000) :
    (∀ o ∈ process files, o.dest = Dest.train)
    ∧ (process files).filter (fun o => o.dest = Dest.test) = [] := by
  have hall : ∀ o ∈ processFrom 0 files, o.dest = Dest.train :=
    processFrom_all_train files 0 (by simpa [threshold] using h)
  refine ⟨hall, ?_⟩
  rw [List.filter_eq_nil_iff]
  intro o ho
  simp [hall o ho]

theorem small_input_all_train_witness :
    (∀ o ∈ process ["cat.1.jpg", "dog.txt"], o.dest = Dest.train)
    ∧ (process ["cat.1.jpg", "dog.txt"]).filter
        (fun o => o.dest = Dest.test) = [] :=
  small_input_all_train ["cat.1.jpg", "dog.txt"] (by decide)

/-- C10: the routing counter enumerates all collected files, skipped ones
included: a `.jpg` file's destination is decided by its absolute position
(`mkOutput`'s `if i < 20000`), so the same `.jpg` file with the same rank
among `.jpg` files lands in train when no skipped files precede it and in
test when 20000 skipped non-`.jpg` files precede it. -/
theorem routing_index_counts_skipped_files :
    List.filter (fun f => jpgB f) (List.replicate 20000 "b" ++ ["a.jpg"])
      = List.filter (fun f => jpgB f) ["a.jpg"]
    ∧ process ["a.jpg"] = [Output.mk Dest.train "a.pt"]
    ∧ process (List.replicate 20000 "b" ++ ["a.jpg"])
        = [Output.mk Dest.test "a.pt"]
    ∧ (∀ i f, (mkOutput i f).dest
        = (if i < 20000 then Dest.train else Dest.test)) := by
  refine ⟨?_, by decide, process_shifted_example, fun i f => rfl⟩
  rw [List.filter_append, filter_jpg_replicate "b" (by decide), List.nil_append]
